import Mathlib

/-!
# Type J thermocouple conversions (ITS-90)

A shallow embedding of `src/TypeJ.cpp`.

Numeric model: the C++ `float` and `double` values are embedded as exact
rationals (`ℚ`).  The `const float` constants `mv_min`, `mv_max`, `range_inv`, `C_min` and
`C_max` hold the single-precision value of their literal, because the range checks and the
scan compare a reading with them exactly: -8.095 is stored as -8.09500026702880859375,
42.919 as 42.91899871826171875 and 69.553 as 69.55300140380859375, while 0, -210 and 1200
are stored unchanged.  The `double` tables `coeff_inv`, `coeff_dir` and `range_dir` are taken
at the rational their literals spell.  Rounding of the arithmetic operations is outside the
model; all statements below are statements of exact arithmetic.

The header `TypeJ.h` is not part of the sources.  The constant `TC_RANGE_ERR`
it defines is taken as a parameter of every function that mentions it, and the
two conversion macros `C_TO_F` and `F_TO_C` are modelled from the specification.
-/

namespace TypeJ

/-! ## Constants and tables -/

/-- Number of mV ranges for inverse lookup. -/
def nranges_inv : Nat := 3

/-- Number of coefficients for inverse lookup. -/
def ncoeff_inv : Nat := 9

/-- The `const float mv_min = -8.095`: the single-precision value of the literal,
`-8488223 / 2 ^ 20`. -/
def mv_min : ℚ := -8.09500026702880859375

/-- The `const float mv_max = 69.553`: the single-precision value of the literal,
`9116451 / 2 ^ 17`. -/
def mv_max : ℚ := 69.55300140380859375

/-- Coefficients for inverse lookup (given mV, find C), rows `i`, columns `j`. -/
def coeff_inv : List (List ℚ) := [
  [  0.0000000E+00,  0.000000E+00, -3.11358187E+03 ],
  [  1.9528268E+01,  1.978425E+01,  3.00543684E+02 ],
  [ -1.2286185E+00, -2.001204E-01, -9.94773230E+00 ],
  [ -1.0752178E+00,  1.036969E-02,  1.70276630E-01 ],
  [ -5.9086933E-01, -2.549687E-04, -1.43033468E-03 ],
  [ -1.7256713E-01,  3.585153E-06,  4.73886084E-06 ],
  [ -2.8131513E-02, -5.344285E-08,  0.00000000E+00 ],
  [ -2.3963370E-03,  5.099890E-10,  0.00000000E+00 ],
  [ -8.3823321E-05,  0.000000E+00,  0.00000000E+00 ]
]

/-- The mV ranges for inverse lookup coefficients: row 0 lower bounds, row 1 upper bounds.
The table is `const float`, written `{ -8.095, 0.000, 42.919 }, { 0.000, 42.919, 69.553 }`;
each entry is the single-precision value of its literal. -/
def range_inv : List (List ℚ) := [
  [ -8.09500026702880859375,  0.000,                 42.91899871826171875  ],
  [  0.000,                   42.91899871826171875,  69.55300140380859375  ]
]

/-- Coefficients for direct lookup (given C, find mV). -/
def coeff_dir : List (List ℚ) := [
  [  0.000000000000E+00,  0.296456256810E+03 ],
  [  0.503811878150E-01, -0.149761277860E+01 ],
  [  0.304758369300E-04,  0.317871039240E-02 ],
  [ -0.856810657200E-07, -0.318476867010E-05 ],
  [  0.132281952950E-09,  0.157208190040E-08 ],
  [ -0.170529583370E-12, -0.306913690560E-12 ],
  [  0.209480906970E-15,  0.000000000000E+00 ],
  [ -0.125383953360E-18,  0.000000000000E+00 ],
  [  0.156317256970E-22,  0.000000000000E+00 ]
]

/-- Ranges for direct lookup: row 0 lower bounds, row 1 upper bounds. -/
def range_dir : List (List ℚ) := [
  [ -210.000,  760 ],
  [      760, 1200 ]
]

def C_max : ℚ := 1200.0

def C_min : ℚ := -210.0

/-- Table access `t[i][j]` of a two-dimensional array literal. -/
def at2 (t : List (List ℚ)) (i j : Nat) : ℚ := (t.getD i []).getD j 0

/-! ## Conversion macros of the missing header -/

/-- Modelled from the spec: the macro `C_TO_F` of `TypeJ.h`, which is not among the
sources; the specification gives `cToF(c) = c*9/5+32`. -/
def C_TO_F (c : ℚ) : ℚ := c * 9 / 5 + 32

/-- Modelled from the spec: the macro `F_TO_C` of `TypeJ.h`, which is not among the
sources; the specification gives `fToC(f) = (f-32)*5/9`. -/
def F_TO_C (f : ℚ) : ℚ := (f - 32) * 5 / 9

end TypeJ

/-- Instance state of the converter: the two Fahrenheit bounds set by the constructor. -/
structure TypeJ where
  F_max : ℚ
  F_min : ℚ
deriving Repr, DecidableEq

namespace TypeJ

/-- The constructor `TypeJ::TypeJ()`. -/
def new : TypeJ :=
  { F_max := C_TO_F C_max
    F_min := C_TO_F C_min }

/-! ## Range predicates -/

/-- Checks to make sure mv signal in range. -/
def inrange_mV (mv : ℚ) : Bool := decide (mv ≥ mv_min) && decide (mv ≤ mv_max)

/-- Checks to make sure temperature in range. -/
def inrange_C (ambC : ℚ) : Bool := decide (ambC ≥ C_min) && decide (ambC ≤ C_max)

/-- Checks to make sure temperature in range (Fahrenheit, against the instance bounds). -/
def inrange_F (self : TypeJ) (ambF : ℚ) : Bool :=
  decide (ambF ≥ self.F_min) && decide (ambF ≤ self.F_max)

/-! ## Inverse lookup -/

/-- The range scan of `Temp_C`: `ind = 0; for j in 0..nranges_inv: if match then ind = j`. -/
def scan_ind (mv : ℚ) : Nat :=
  (List.range nranges_inv).foldl
    (fun ind j => if mv ≥ at2 range_inv 0 j ∧ mv ≤ at2 range_inv 1 j then j else ind) 0

/-- One pass of the accumulation loop body `sum += x * c; x *= v`, on the state `(sum, x)`. -/
def acc_step (c : Nat → ℚ) (v : ℚ) (st : ℚ × ℚ) (i : Nat) : ℚ × ℚ :=
  (st.1 + st.2 * c i, st.2 * v)

/-- The accumulation loop `for i in 0..n`, started at `sum = 0.0`, `x = 1.0`; returns `sum`. -/
def acc_loop (c : Nat → ℚ) (v : ℚ) (n : Nat) : ℚ :=
  ((List.range n).foldl (acc_step c v) (0, 1)).1

/-- Given mv reading, returns absolute temp C. -/
def Temp_C (TC_RANGE_ERR : ℚ) (mv : ℚ) : ℚ :=
  if !inrange_mV mv then TC_RANGE_ERR
  else
    let ind := scan_ind mv
    acc_loop (fun i => at2 coeff_inv i ind) mv ncoeff_inv

/-! ## Direct lookup -/

/-- Returns mV corresponding to temp reading; used for cold junction compensation. -/
def mV_C (TC_RANGE_ERR : ℚ) (ambC : ℚ) : ℚ :=
  if !inrange_C ambC then TC_RANGE_ERR
  else if ambC ≥ at2 range_dir 0 0 ∧ ambC ≤ at2 range_dir 1 0 then
    acc_loop (fun i => at2 coeff_dir i 0) ambC 9
  else
    acc_loop (fun i => at2 coeff_dir i 1) ambC 9

/-- Cold junction compensation in F units. -/
def mV_F (self : TypeJ) (TC_RANGE_ERR : ℚ) (ambF : ℚ) : ℚ :=
  if inrange_F self ambF then mV_C TC_RANGE_ERR (F_TO_C ambF)
  else TC_RANGE_ERR

/-! ## Compensated and Fahrenheit readings -/

/-- Given mv reading and ambient temp, returns compensated (true) temperature at tip of
sensor: the two-argument overload `Temp_C(float mv, float amb)`. -/
def Temp_C_amb (TC_RANGE_ERR : ℚ) (mv amb : ℚ) : ℚ :=
  let mv_amb := mV_C TC_RANGE_ERR amb
  Temp_C TC_RANGE_ERR (mv + mv_amb)

/-- Returns compensated temperature in F units: the overload `Temp_F(float mv, float amb)`. -/
def Temp_F_amb (TC_RANGE_ERR : ℚ) (mv amb : ℚ) : ℚ :=
  C_TO_F (Temp_C_amb TC_RANGE_ERR mv (F_TO_C amb))

/-- Returns absolute temperature in F units. -/
def Temp_F (TC_RANGE_ERR : ℚ) (mv : ℚ) : ℚ :=
  let temp := Temp_C TC_RANGE_ERR mv
  if temp = TC_RANGE_ERR then TC_RANGE_ERR
  else C_TO_F temp

/-! ## Certified range bounds for polynomials

Verification tools, not part of the converter: an executable enclosure of a polynomial
on an interval, used to bound the inverse power series over all accepted readings. -/

/-- The range scan unfolded: the three tests in order, the last success kept. -/
theorem scan_ind_unfold (mv : ℚ) :
    scan_ind mv =
      if (42.91899871826171875 : ℚ) ≤ mv ∧ mv ≤ 69.55300140380859375 then 2
      else if (0 : ℚ) ≤ mv ∧ mv ≤ 42.91899871826171875 then 1
      else 0 := by
  simp only [scan_ind, nranges_inv, List.range_succ, List.range_zero, List.nil_append,
    List.cons_append, List.foldl_cons, List.foldl_nil]
  have e00 : at2 range_inv 0 0 = -8.09500026702880859375 := rfl
  have e10 : at2 range_inv 1 0 = 0.000 := rfl
  have e01 : at2 range_inv 0 1 = 0.000 := rfl
  have e11 : at2 range_inv 1 1 = 42.91899871826171875 := rfl
  have e02 : at2 range_inv 0 2 = 42.91899871826171875 := rfl
  have e12 : at2 range_inv 1 2 = 69.55300140380859375 := rfl
  rw [e00, e10, e01, e11, e02, e12]
  split_ifs <;> first
    | rfl
    | (exfalso
       simp only [not_and_or, not_le, ge_iff_le] at *
       casesm* _ ∨ _, _ ∧ _ <;> norm_num at * <;> linarith)

/-- Loop invariant of the accumulation loop: after `n` passes `sum` holds the first `n`
terms of the power series and `x` holds `v ^ n`. -/
theorem acc_fold_invariant (c : Nat → ℚ) (v : ℚ) (n : Nat) :
    (List.range n).foldl (acc_step c v) (0, 1)
      = (∑ i in Finset.range n, c i * v ^ i, v ^ n) := by
  induction n with
  | zero => simp
  | succ k ih =>
    rw [List.range_succ, List.foldl_append, ih, Finset.sum_range_succ]
    simp only [List.foldl_cons, List.foldl_nil, acc_step]
    rw [pow_succ, mul_comm (v ^ k) (c k)]

/-- The accumulation loop returns the `n`-term power series. -/
theorem acc_loop_eq_sum (c : Nat → ℚ) (v : ℚ) (n : Nat) :
    acc_loop c v n = ∑ i in Finset.range n, c i * v ^ i := by
  rw [acc_loop, acc_fold_invariant]

/-- The millivolt range check, in numbers. -/
theorem inrange_mV_iff (mv : ℚ) :
    inrange_mV mv = true ↔
      (-8.09500026702880859375 : ℚ) ≤ mv ∧ mv ≤ 69.55300140380859375 := by
  simp [inrange_mV, mv_min, mv_max]

/-- Every reading between the decimal bounds -8.095 and 69.553 passes the range check. -/
theorem inrange_mV_of_decimal (mv : ℚ) (h : (-8.095 : ℚ) ≤ mv ∧ mv ≤ 69.553) :
    inrange_mV mv = true := by
  rw [inrange_mV_iff]
  obtain ⟨a, b⟩ := h
  constructor
  · norm_num at a ⊢
    linarith
  · norm_num at b ⊢
    linarith

/-- The stored bounds are single-precision numbers (24-bit significands over a power of
two) within half a unit in the last place of the decimal literals. -/
theorem float_constants_nearest :
    mv_min = -(8488223 : ℚ) / 2 ^ 20 ∧ |mv_min - (-8.095)| ≤ 1 / 2 ^ 21 ∧
    mv_max = (9116451 : ℚ) / 2 ^ 17 ∧ |mv_max - 69.553| ≤ 1 / 2 ^ 18 ∧
    at2 range_inv 1 1 = (11250958 : ℚ) / 2 ^ 18 ∧
      |at2 range_inv 1 1 - 42.919| ≤ 1 / 2 ^ 19 := by
  have e11 : at2 range_inv 1 1 = 42.91899871826171875 := rfl
  rw [e11]
  simp only [mv_min, mv_max, abs_le]
  norm_num

/-- The Celsius range check, in numbers. -/
theorem inrange_C_iff (ambC : ℚ) :
    inrange_C ambC = true ↔ (-210 : ℚ) ≤ ambC ∧ ambC ≤ 1200 := by
  simp only [inrange_C, C_min, C_max, Bool.and_eq_true, decide_eq_true_eq, ge_iff_le]
  norm_num

/-- Outside the millivolt range `Temp_C` takes the early return. -/
theorem Temp_C_of_not_inrange (S mv : ℚ) (h : inrange_mV mv = false) : Temp_C S mv = S := by
  simp [Temp_C, h]

/-- Inside the millivolt range `Temp_C` is the accumulation loop on the scanned column. -/
theorem Temp_C_of_inrange (S mv : ℚ) (h : inrange_mV mv = true) :
    Temp_C S mv = acc_loop (fun i => at2 coeff_inv i (scan_ind mv)) mv ncoeff_inv := by
  simp [Temp_C, h]

/-- Outside the Celsius range `mV_C` takes the early return. -/
theorem mV_C_of_not_inrange (S ambC : ℚ) (h : inrange_C ambC = false) : mV_C S ambC = S := by
  simp [mV_C, h]

/-! ## Early returns -/

/-- C1, as stated, fails: the single-precision reading -8.09500026702880859375 is below
-8.095 and the reading 69.55300140380859375 is above 69.553, yet both equal the stored
bounds, pass the range check and are converted (to about -209.95 and 1199.96 degrees)
instead of yielding the sentinel. -/
theorem Temp_C_out_of_range_decimal_fails :
    ((-8.09500026702880859375 : ℚ) < -8.095 ∧
      inrange_mV (-8.09500026702880859375) = true ∧
      Temp_C (-99999) (-8.09500026702880859375) ≠ -99999 ∧
      -210 < Temp_C (-99999) (-8.09500026702880859375) ∧
      Temp_C (-99999) (-8.09500026702880859375) < -209) ∧
    ((69.55300140380859375 : ℚ) > 69.553 ∧
      inrange_mV 69.55300140380859375 = true ∧
      Temp_C (-99999) 69.55300140380859375 ≠ -99999 ∧
      1199 < Temp_C (-99999) 69.55300140380859375 ∧
      Temp_C (-99999) 69.55300140380859375 < 1200) := by
  refine ⟨⟨by norm_num, ?_, ?_, ?_, ?_⟩, ⟨by norm_num, ?_, ?_, ?_, ?_⟩⟩ <;> decide!

/-- C1, amended: for every millivolt value below the stored lower bound
-8.09500026702880859375 or above the stored upper bound 69.55300140380859375 (the
single-precision values of -8.095 and 69.553) the range check fails and `Temp_C` returns
exactly the range-error sentinel, through the early return that precedes the scan and the
accumulation loop. -/
theorem Temp_C_out_of_range (TC_RANGE_ERR mv : ℚ)
    (h : mv < -8.09500026702880859375 ∨ mv > 69.55300140380859375) :
    inrange_mV mv = false ∧ Temp_C TC_RANGE_ERR mv = TC_RANGE_ERR := by
  have hr : inrange_mV mv = false := by
    rw [← Bool.not_eq_true, inrange_mV_iff]
    rcases h with h | h
    · exact fun hh => absurd hh.1 (not_le.mpr h)
    · exact fun hh => absurd hh.2 (not_le.mpr h)
  exact ⟨hr, Temp_C_of_not_inrange _ _ hr⟩

theorem Temp_C_out_of_range_witness :
    Temp_C (-99999) 100 = -99999 ∧ Temp_C (-99999) (-8.096) = -99999 :=
  ⟨(Temp_C_out_of_range (-99999) 100 (Or.inr (by norm_num))).2,
   (Temp_C_out_of_range (-99999) (-8.096) (Or.inl (by norm_num))).2⟩

/-- C2: for every ambient temperature below -210 or above 1200 the range check fails and
`mV_C` returns exactly the range-error sentinel. -/
theorem mV_C_out_of_range (TC_RANGE_ERR ambC : ℚ) (h : ambC < -210 ∨ ambC > 1200) :
    inrange_C ambC = false ∧ mV_C TC_RANGE_ERR ambC = TC_RANGE_ERR := by
  have hr : inrange_C ambC = false := by
    rw [← Bool.not_eq_true, inrange_C_iff]
    rcases h with h | h
    · exact fun hh => absurd hh.1 (not_le.mpr h)
    · exact fun hh => absurd hh.2 (not_le.mpr h)
  exact ⟨hr, mV_C_of_not_inrange _ _ hr⟩

theorem mV_C_out_of_range_witness :
    mV_C (-99999) 1200.5 = -99999 ∧ mV_C (-99999) (-211) = -99999 :=
  ⟨(mV_C_out_of_range (-99999) 1200.5 (Or.inr (by norm_num))).2,
   (mV_C_out_of_range (-99999) (-211) (Or.inl (by norm_num))).2⟩

/-! ## Subrange selection -/

/-- The entries of the inverse range table, column by column. -/
theorem range_inv_entries :
    at2 range_inv 0 0 = -8.09500026702880859375 ∧ at2 range_inv 1 0 = 0 ∧
    at2 range_inv 0 1 = 0 ∧ at2 range_inv 1 1 = 42.91899871826171875 ∧
    at2 range_inv 0 2 = 42.91899871826171875 ∧
    at2 range_inv 1 2 = 69.55300140380859375 := by
  refine ⟨rfl, ?_, ?_, rfl, rfl, rfl⟩ <;>
    · show (0.000 : ℚ) = 0
      norm_num

/-- Column `j < 3` of the inverse range table matches `mv` exactly on its closed interval. -/
theorem range_inv_match_iff (mv : ℚ) (j : Nat) (hj : j < nranges_inv) :
    (at2 range_inv 0 j ≤ mv ∧ mv ≤ at2 range_inv 1 j) ↔
      (j = 0 ∧ (-8.09500026702880859375 : ℚ) ≤ mv ∧ mv ≤ 0) ∨
      (j = 1 ∧ (0 : ℚ) ≤ mv ∧ mv ≤ 42.91899871826171875) ∨
      (j = 2 ∧ (42.91899871826171875 : ℚ) ≤ mv ∧ mv ≤ 69.55300140380859375) := by
  obtain ⟨e00, e10, e01, e11, e02, e12⟩ := range_inv_entries
  unfold nranges_inv at hj
  interval_cases j
  · rw [e00, e10]; simp
  · rw [e01, e11]; simp
  · rw [e02, e12]; simp

/-- The index left by the scan, by position of `mv` below the upper calibration bound. -/
theorem scan_ind_cases (mv : ℚ) (hhi : mv ≤ 69.55300140380859375) :
    (mv < 0 ∧ scan_ind mv = 0) ∨
      (0 ≤ mv ∧ mv < 42.91899871826171875 ∧ scan_ind mv = 1) ∨
      (42.91899871826171875 ≤ mv ∧ scan_ind mv = 2) := by
  rw [scan_ind_unfold]
  rcases lt_or_le mv 0 with a | a
  · left
    refine ⟨a, ?_⟩
    rw [if_neg, if_neg]
    · exact fun hh => absurd hh.1 (not_le.mpr a)
    · intro hh
      have := hh.1
      norm_num at this
      linarith
  · rcases lt_or_le mv 42.91899871826171875 with b | b
    · right; left
      refine ⟨a, b, ?_⟩
      rw [if_neg, if_pos ⟨a, le_of_lt b⟩]
      exact fun hh => absurd hh.1 (not_le.mpr b)
    · right; right
      exact ⟨b, if_pos ⟨b, hhi⟩⟩

/-- The scan always leaves a valid column index. -/
theorem scan_ind_lt (mv : ℚ) : scan_ind mv < nranges_inv := by
  rw [scan_ind_unfold]
  split_ifs <;> decide

/-- For an accepted reading the column left by the scan matches the reading. -/
theorem scan_ind_match (mv : ℚ)
    (h : (-8.09500026702880859375 : ℚ) ≤ mv ∧ mv ≤ 69.55300140380859375) :
    at2 range_inv 0 (scan_ind mv) ≤ mv ∧ mv ≤ at2 range_inv 1 (scan_ind mv) := by
  rw [range_inv_match_iff mv _ (scan_ind_lt mv)]
  rcases scan_ind_cases mv h.2 with ⟨a, e⟩ | ⟨a, b, e⟩ | ⟨b, e⟩
  · exact Or.inl ⟨e, h.1, le_of_lt a⟩
  · exact Or.inr (Or.inl ⟨e, a, le_of_lt b⟩)
  · exact Or.inr (Or.inr ⟨e, b, h.2⟩)

/-- C3, as stated, fails: the single-precision reading 42.91899871826171875 lies in
[0, 42.919), where the claim puts index 1, but it equals the stored lower bound of column 2,
so the scan leaves index 2 and `Temp_C` evaluates column 2, whose value there differs from
that of column 1. -/
theorem Temp_C_scan_decimal_partition_fails :
    ((-8.095 : ℚ) ≤ 42.91899871826171875 ∧ (42.91899871826171875 : ℚ) ≤ 69.553) ∧
    ((0 : ℚ) ≤ 42.91899871826171875 ∧ (42.91899871826171875 : ℚ) < 42.919) ∧
    scan_ind 42.91899871826171875 = 2 ∧ scan_ind 42.91899871826171875 ≠ 1 ∧
    Temp_C (-99999) 42.91899871826171875
      = acc_loop (fun i => at2 coeff_inv i 2) 42.91899871826171875 ncoeff_inv ∧
    Temp_C (-99999) 42.91899871826171875
      ≠ acc_loop (fun i => at2 coeff_inv i 1) 42.91899871826171875 ncoeff_inv := by
  refine ⟨by norm_num, by norm_num, ?_, ?_, ?_, ?_⟩ <;> decide!

/-- C3, amended: for every mv between the stored bounds -8.09500026702880859375 and
69.55300140380859375 the index with which `Temp_C` evaluates its polynomial is the one left
by the scan, and that index is a matching column of the inverse range table and the largest
matching one (last match wins): 0 below 0, 1 on [0, 42.91899871826171875) and 2 from
42.91899871826171875 (the single-precision value of 42.919) upwards; mv = 0 selects
index 1. -/
theorem Temp_C_scan_last_match (TC_RANGE_ERR mv : ℚ)
    (h : (-8.09500026702880859375 : ℚ) ≤ mv ∧ mv ≤ 69.55300140380859375) :
    Temp_C TC_RANGE_ERR mv
        = acc_loop (fun i => at2 coeff_inv i (scan_ind mv)) mv ncoeff_inv ∧
    scan_ind mv < nranges_inv ∧
    (at2 range_inv 0 (scan_ind mv) ≤ mv ∧ mv ≤ at2 range_inv 1 (scan_ind mv)) ∧
    (∀ j, j < nranges_inv → at2 range_inv 0 j ≤ mv ∧ mv ≤ at2 range_inv 1 j →
      j ≤ scan_ind mv) ∧
    (mv < 0 → scan_ind mv = 0) ∧
    (0 ≤ mv → mv < 42.91899871826171875 → scan_ind mv = 1) ∧
    (42.91899871826171875 ≤ mv → scan_ind mv = 2) ∧
    scan_ind 0 = 1 := by
  obtain ⟨hlo, hhi⟩ := h
  have hsel := scan_ind_cases mv hhi
  have hin : inrange_mV mv = true := (inrange_mV_iff mv).mpr ⟨hlo, hhi⟩
  refine ⟨Temp_C_of_inrange _ _ hin, scan_ind_lt mv, scan_ind_match mv ⟨hlo, hhi⟩,
    ?_, ?_, ?_, ?_, ?_⟩
  · intro j hj hm
    rw [range_inv_match_iff mv j hj] at hm
    rcases hsel with ⟨a, e⟩ | ⟨a, b, e⟩ | ⟨b, e⟩ <;> rw [e]
    · rcases hm with ⟨ej, _, _⟩ | ⟨_, c, _⟩ | ⟨_, c, _⟩
      · exact le_of_eq ej
      · exact absurd c (not_le.mpr a)
      · exfalso; norm_num at c; linarith
    · rcases hm with ⟨ej, _, _⟩ | ⟨ej, _, _⟩ | ⟨_, c, _⟩
      · omega
      · omega
      · exact absurd c (not_le.mpr b)
    · unfold nranges_inv at hj; omega
  · intro a
    rcases hsel with ⟨_, e⟩ | ⟨c, _, _⟩ | ⟨c, _⟩
    · exact e
    · exact absurd c (not_le.mpr a)
    · exfalso; norm_num at c; linarith
  · intro a b
    rcases hsel with ⟨c, _⟩ | ⟨_, _, e⟩ | ⟨c, _⟩
    · exact absurd a (not_le.mpr c)
    · exact e
    · exact absurd c (not_le.mpr b)
  · intro b
    rcases hsel with ⟨c, _⟩ | ⟨_, c, _⟩ | ⟨_, e⟩
    · exfalso; norm_num at b; linarith
    · exact absurd b (not_le.mpr c)
    · exact e
  · rw [scan_ind_unfold]; norm_num

theorem Temp_C_scan_last_match_witness :
    ((-8.09500026702880859375 : ℚ) ≤ 0 ∧ (0 : ℚ) ≤ 69.55300140380859375) ∧
      scan_ind 0 = 1 ∧
      Temp_C (-99999) 0 = acc_loop (fun i => at2 coeff_inv i 1) 0 ncoeff_inv ∧
      scan_ind 42.919 = 2 := by
  have hb : (-8.09500026702880859375 : ℚ) ≤ 0 ∧ (0 : ℚ) ≤ 69.55300140380859375 := by
    norm_num
  have h := Temp_C_scan_last_match (-99999) 0 hb
  have e : scan_ind 0 = 1 := h.2.2.2.2.2.1 le_rfl (by norm_num)
  have h2 := Temp_C_scan_last_match (-99999) 42.919 (by norm_num)
  refine ⟨hb, e, ?_, h2.2.2.2.2.2.2.1 (by norm_num)⟩
  have h1 := h.1
  rw [e] at h1
  exact h1

/-! ## Power series -/

/-- C4: for every mv in [-8.095, 69.553], with `j = scan_ind mv` the selected subrange index,
`Temp_C` returns the 9-term power series `∑ i < 9, coeff_inv[i][j] * mv ^ i`: the loop
`sum += x * coeff; x *= mv` computes exactly that polynomial. -/
theorem Temp_C_power_series (TC_RANGE_ERR mv : ℚ) (h : (-8.095 : ℚ) ≤ mv ∧ mv ≤ 69.553) :
    Temp_C TC_RANGE_ERR mv
      = ∑ i in Finset.range 9, at2 coeff_inv i (scan_ind mv) * mv ^ i := by
  rw [Temp_C_of_inrange _ _ (inrange_mV_of_decimal mv h), acc_loop_eq_sum]
  rfl

theorem Temp_C_power_series_witness :
    ((-8.095 : ℚ) ≤ 1 ∧ (1 : ℚ) ≤ 69.553) ∧
      Temp_C (-99999) 1 = 19594247853520139 / 1000000000000000 := by
  have h := Temp_C_power_series (-99999) 1 (by norm_num)
  have e : scan_ind 1 = 1 := by rw [scan_ind_unfold]; norm_num
  rw [e] at h
  refine ⟨by norm_num, ?_⟩
  rw [h]
  simp [Finset.sum_range_succ, at2, coeff_inv]
  norm_num

/-- C5: for every ambient temperature in [-210, 1200], `mV_C` returns the 9-term power series
`∑ i < 9, coeff_dir[i][k] * ambC ^ i` with `k = 0` when `ambC ≤ 760` and `k = 1` when
`760 < ambC`; the shared bound 760 belongs to column 0. -/
theorem mV_C_power_series (TC_RANGE_ERR ambC : ℚ) (h : (-210 : ℚ) ≤ ambC ∧ ambC ≤ 1200) :
    mV_C TC_RANGE_ERR ambC
      = ∑ i in Finset.range 9, at2 coeff_dir i (if ambC ≤ 760 then 0 else 1) * ambC ^ i := by
  have hin : inrange_C ambC = true := (inrange_C_iff ambC).mpr h
  have e00 : at2 range_dir 0 0 = -210.000 := rfl
  have e10 : at2 range_dir 1 0 = 760 := rfl
  simp only [mV_C, hin, Bool.not_true, Bool.false_eq_true, if_false, e00, e10, acc_loop_eq_sum]
  by_cases hc : ambC ≤ 760
  · have hlo : ambC ≥ (-210.000 : ℚ) := by
      have := h.1
      norm_num
      linarith
    rw [if_pos ⟨hlo, hc⟩, if_pos hc]
  · rw [if_neg (fun hh => hc hh.2), if_neg hc]

theorem mV_C_power_series_witness :
    ((-210 : ℚ) ≤ 760 ∧ (760 : ℚ) ≤ 1200) ∧
      mV_C (-99999) 760 = ∑ i in Finset.range 9, at2 coeff_dir i 0 * (760 : ℚ) ^ i ∧
      mV_C (-99999) 760 = 3274432474778482777101 / 76293945312500000000 ∧
      ∑ i in Finset.range 9, at2 coeff_dir i 1 * (760 : ℚ) ^ i
        = 41912735750337831 / 976562500000000 := by
  have h := mV_C_power_series (-99999) 760 (by norm_num)
  rw [if_pos le_rfl] at h
  refine ⟨by norm_num, h, ?_, ?_⟩
  · rw [h]
    simp [Finset.sum_range_succ, at2, coeff_dir]
    norm_num
  · simp [Finset.sum_range_succ, at2, coeff_dir]
    norm_num

/-! ## Sentinel propagation -/

/-- At 0 mV the reading is in range, column 1 is selected and the series is 0. -/
theorem Temp_C_zero_val (S : ℚ) : Temp_C S 0 = 0 := by
  have hin : inrange_mV 0 = true := (inrange_mV_iff 0).mpr (by norm_num)
  have e : scan_ind 0 = 1 := by rw [scan_ind_unfold]; norm_num
  rw [Temp_C_of_inrange _ _ hin, acc_loop_eq_sum, e]
  simp [ncoeff_inv, Finset.sum_range_succ, at2, coeff_inv]
  norm_num

/-- At 0 degrees Celsius the ambient is in range, column 0 is selected and the series is 0. -/
theorem mV_C_zero_val (S : ℚ) : mV_C S 0 = 0 := by
  have hin : inrange_C 0 = true := (inrange_C_iff 0).mpr (by norm_num)
  have e00 : at2 range_dir 0 0 = -210.000 := rfl
  have e10 : at2 range_dir 1 0 = 760 := rfl
  simp only [mV_C, hin, Bool.not_true, Bool.false_eq_true, if_false, e00, e10, acc_loop_eq_sum]
  rw [if_pos (by norm_num)]
  simp [Finset.sum_range_succ, at2, coeff_dir]
  norm_num

/-- C6: for every mv, `Temp_F mv` is the range-error sentinel itself, unconverted, whenever
`Temp_C mv` is the sentinel, and is `Temp_C mv * 9 / 5 + 32` otherwise; at the out-of-range
input mv = 100.0 the result is the sentinel. -/
theorem Temp_F_sentinel (TC_RANGE_ERR mv : ℚ) :
    (Temp_C TC_RANGE_ERR mv = TC_RANGE_ERR → Temp_F TC_RANGE_ERR mv = TC_RANGE_ERR) ∧
    (Temp_C TC_RANGE_ERR mv ≠ TC_RANGE_ERR →
      Temp_F TC_RANGE_ERR mv = Temp_C TC_RANGE_ERR mv * 9 / 5 + 32) ∧
    Temp_F TC_RANGE_ERR 100.0 = TC_RANGE_ERR := by
  refine ⟨?_, ?_, ?_⟩
  · intro h
    simp only [Temp_F]
    rw [if_pos h]
  · intro h
    simp only [Temp_F]
    rw [if_neg h, C_TO_F]
  · have hr : inrange_mV 100.0 = false := by
      rw [← Bool.not_eq_true, inrange_mV_iff]
      norm_num
    simp only [Temp_F]
    rw [if_pos (Temp_C_of_not_inrange _ _ hr)]

theorem Temp_F_sentinel_witness :
    Temp_C (-99999) 0 ≠ -99999 ∧ Temp_F (-99999) 0 = 32 ∧
      Temp_C (-99999) 100.0 = -99999 ∧ Temp_F (-99999) 100.0 = -99999 := by
  have hne : Temp_C (-99999) 0 ≠ -99999 := by rw [Temp_C_zero_val]; norm_num
  have hr : inrange_mV 100.0 = false := by
    rw [← Bool.not_eq_true, inrange_mV_iff]
    norm_num
  have hs : Temp_C (-99999) 100.0 = -99999 := Temp_C_of_not_inrange _ _ hr
  refine ⟨hne, ?_, hs, (Temp_F_sentinel (-99999) 100.0).1 hs⟩
  rw [(Temp_F_sentinel (-99999) 0).2.1 hne, Temp_C_zero_val]
  norm_num

/-- C8: for every mv and every ambient Fahrenheit temperature, `Temp_F(mv, ambF)` is
`C_TO_F(Temp_C(mv, F_TO_C(ambF)))` with no sentinel short-circuit: when the compensated
Celsius result is the sentinel `S`, the Fahrenheit result is `S * 9 / 5 + 32`, which is not
`S` for any sentinel other than -40 (the fixed point of the conversion, a temperature inside
the calibrated range). -/
theorem Temp_F_amb_no_short_circuit (TC_RANGE_ERR mv ambF : ℚ) :
    Temp_F_amb TC_RANGE_ERR mv ambF
        = C_TO_F (Temp_C_amb TC_RANGE_ERR mv (F_TO_C ambF)) ∧
    (Temp_C_amb TC_RANGE_ERR mv (F_TO_C ambF) = TC_RANGE_ERR →
      Temp_F_amb TC_RANGE_ERR mv ambF = TC_RANGE_ERR * 9 / 5 + 32 ∧
      (TC_RANGE_ERR ≠ -40 → Temp_F_amb TC_RANGE_ERR mv ambF ≠ TC_RANGE_ERR)) := by
  refine ⟨rfl, ?_⟩
  intro h
  have e : Temp_F_amb TC_RANGE_ERR mv ambF = TC_RANGE_ERR * 9 / 5 + 32 := by
    simp only [Temp_F_amb]
    rw [h, C_TO_F]
  refine ⟨e, ?_⟩
  intro hS hEq
  rw [e] at hEq
  apply hS
  linarith

theorem Temp_F_amb_no_short_circuit_witness :
    Temp_C_amb (-99999) 100 (F_TO_C 32) = -99999 ∧
      Temp_F_amb (-99999) 100 32 = -99999 * 9 / 5 + 32 ∧
      Temp_F_amb (-99999) 100 32 ≠ -99999 := by
  have hc : Temp_C_amb (-99999) 100 (F_TO_C 32) = -99999 := by
    have h0 : F_TO_C 32 = 0 := by norm_num [F_TO_C]
    simp only [Temp_C_amb]
    rw [h0, mV_C_zero_val]
    apply Temp_C_of_not_inrange
    rw [← Bool.not_eq_true, inrange_mV_iff]
    norm_num
  have h := (Temp_F_amb_no_short_circuit (-99999) 100 32).2 hc
  exact ⟨hc, h.1, h.2 (by norm_num)⟩

/-- C9: for every ambient Fahrenheit temperature, `mV_F` returns the range-error sentinel
when the temperature is outside `[F_min, F_max]` (the instance bounds, compared in
Fahrenheit), and otherwise returns `mV_C(F_TO_C(ambF))`. -/
theorem mV_F_range_check (self : TypeJ) (TC_RANGE_ERR ambF : ℚ) :
    (ambF < self.F_min ∨ ambF > self.F_max → mV_F self TC_RANGE_ERR ambF = TC_RANGE_ERR) ∧
    (self.F_min ≤ ambF ∧ ambF ≤ self.F_max →
      mV_F self TC_RANGE_ERR ambF = mV_C TC_RANGE_ERR (F_TO_C ambF)) := by
  constructor
  · intro h
    have hr : inrange_F self ambF = false := by
      rw [← Bool.not_eq_true]
      simp only [inrange_F, Bool.and_eq_true, decide_eq_true_eq, ge_iff_le]
      rcases h with h | h
      · exact fun hh => absurd hh.1 (not_le.mpr h)
      · exact fun hh => absurd hh.2 (not_le.mpr h)
    simp [mV_F, hr]
  · intro h
    have hr : inrange_F self ambF = true := by
      simp only [inrange_F, Bool.and_eq_true, decide_eq_true_eq, ge_iff_le]
      exact h
    simp [mV_F, hr]

theorem mV_F_range_check_witness :
    mV_F new (-99999) 3000 = -99999 ∧ mV_F new (-99999) (-346.5) = -99999 ∧
      mV_F new (-99999) 32 = mV_C (-99999) (F_TO_C 32) ∧ mV_F new (-99999) 32 = 0 := by
  have hmax : new.F_max = 2192 := by norm_num [new, C_TO_F, C_max]
  have hmin : new.F_min = -346 := by norm_num [new, C_TO_F, C_min]
  have h1 := (mV_F_range_check new (-99999) 3000).1 (Or.inr (by rw [hmax]; norm_num))
  have h2 := (mV_F_range_check new (-99999) (-346.5)).1 (Or.inl (by rw [hmin]; norm_num))
  have h3 := (mV_F_range_check new (-99999) 32).2 (by rw [hmin, hmax]; norm_num)
  refine ⟨h1, h2, h3, ?_⟩
  rw [h3]
  have h0 : F_TO_C 32 = 0 := by norm_num [F_TO_C]
  rw [h0, mV_C_zero_val]

/-! ## Coverage of the millivolt domain -/

/-- C10: the inverse range table covers exactly the calibrated millivolt domain: `inrange_mV`
holds if and only if some column `j < 3` has `range_inv[0][j] ≤ mv ≤ range_inv[1][j]`; the
check is true at the exact bounds -8.095 and 69.553, which are the first lower and the last
upper bound of the table; each upper bound is the next lower bound; and for an accepted mv
the index left by the scan is a matching column, never the unmatched default. -/
theorem range_inv_covers_domain :
    (∀ mv : ℚ, inrange_mV mv = true ↔
      ∃ j, j < nranges_inv ∧ at2 range_inv 0 j ≤ mv ∧ mv ≤ at2 range_inv 1 j) ∧
    inrange_mV (-8.095) = true ∧ inrange_mV 69.553 = true ∧
    at2 range_inv 0 0 = mv_min ∧ at2 range_inv 1 (nranges_inv - 1) = mv_max ∧
    (∀ j, j + 1 < nranges_inv → at2 range_inv 1 j = at2 range_inv 0 (j + 1)) ∧
    (∀ mv : ℚ, inrange_mV mv = true →
      at2 range_inv 0 (scan_ind mv) ≤ mv ∧ mv ≤ at2 range_inv 1 (scan_ind mv)) := by
  refine ⟨?_, ?_, ?_, rfl, rfl, ?_, ?_⟩
  · intro mv
    constructor
    · intro h
      exact ⟨scan_ind mv, scan_ind_lt mv, scan_ind_match mv ((inrange_mV_iff mv).mp h)⟩
    · rintro ⟨j, hj, hm⟩
      rw [inrange_mV_iff]
      rw [range_inv_match_iff mv j hj] at hm
      rcases hm with ⟨_, a, b⟩ | ⟨_, a, b⟩ | ⟨_, a, b⟩
      · constructor
        · exact a
        · norm_num
          linarith
      · constructor
        · norm_num
          linarith
        · norm_num at b ⊢
          linarith
      · constructor
        · norm_num at a ⊢
          linarith
        · exact b
  · rw [inrange_mV_iff]; norm_num
  · rw [inrange_mV_iff]; norm_num
  · intro j hj
    obtain ⟨_, e10, e01, e11, e02, _⟩ := range_inv_entries
    unfold nranges_inv at hj
    have hj2 : j < 2 := by omega
    interval_cases j
    · rw [e10, e01]
    · rw [e11, e02]
  · intro mv h
    exact scan_ind_match mv ((inrange_mV_iff mv).mp h)

theorem range_inv_covers_domain_witness :
    inrange_mV 42.919 = true ∧
      at2 range_inv 0 (scan_ind 42.919) ≤ 42.919 ∧
      (42.919 : ℚ) ≤ at2 range_inv 1 (scan_ind 42.919) := by
  have hin : inrange_mV 42.919 = true := by rw [inrange_mV_iff]; norm_num
  exact ⟨hin, range_inv_covers_domain.2.2.2.2.2.2 42.919 hin⟩

/-! ## Fahrenheit bounds of the constructed instance -/

/-- The Fahrenheit bounds set by the constructor, in numbers. -/
theorem new_bounds : new.F_min = -346 ∧ new.F_max = 2192 := by
  constructor <;> norm_num [new, C_TO_F, C_min, C_max]

/-- The Fahrenheit range check of the constructed instance, in numbers. -/
theorem inrange_F_new_iff (f : ℚ) :
    inrange_F new f = true ↔ (-346 : ℚ) ≤ f ∧ f ≤ 2192 := by
  simp only [inrange_F, new_bounds.1, new_bounds.2, Bool.and_eq_true, decide_eq_true_eq,
    ge_iff_le]

/-- C11: after construction the Fahrenheit bounds are the linear images of the Celsius
bounds, `F_min = C_min * 9 / 5 + 32 = -346` and `F_max = C_max * 9 / 5 + 32 = 2192`, so the
Fahrenheit range check holds exactly on the closed interval from -346 to 2192. -/
theorem constructor_fahrenheit_bounds :
    new.F_min = C_min * 9 / 5 + 32 ∧ new.F_min = -346 ∧
    new.F_max = C_max * 9 / 5 + 32 ∧ new.F_max = 2192 ∧
    (∀ f : ℚ, inrange_F new f = true ↔ (-346 : ℚ) ≤ f ∧ f ≤ 2192) ∧
    inrange_F new (-346) = true ∧ inrange_F new 2192 = true := by
  refine ⟨rfl, new_bounds.1, rfl, new_bounds.2, inrange_F_new_iff, ?_, ?_⟩
  · rw [inrange_F_new_iff]; norm_num
  · rw [inrange_F_new_iff]; norm_num

/-! ## Reference points -/

/-- C12: `Temp_C(0.0)` is 0.0 degrees Celsius: mv = 0 passes the range check, the scan
selects inverse column 1, whose constant coefficient is 0, and the power series evaluates
to exactly 0, whatever the sentinel. -/
theorem Temp_C_ice_point (TC_RANGE_ERR : ℚ) :
    inrange_mV 0 = true ∧ scan_ind 0 = 1 ∧ at2 coeff_inv 0 1 = 0 ∧
      Temp_C TC_RANGE_ERR 0 = 0 := by
  refine ⟨(inrange_mV_iff 0).mpr (by norm_num), ?_, ?_, Temp_C_zero_val _⟩
  · rw [scan_ind_unfold]; norm_num
  · show (0.000000E+00 : ℚ) = 0
    norm_num

/-- C13: `mV_C(0.0)` is 0.0 mV: the ambient 0 passes the range check, lies in the first
direct subrange and so uses direct column 0, whose constant coefficient is 0, and the power
series evaluates to exactly 0, whatever the sentinel. -/
theorem mV_C_ice_point (TC_RANGE_ERR : ℚ) :
    inrange_C 0 = true ∧ (at2 range_dir 0 0 ≤ 0 ∧ (0 : ℚ) ≤ at2 range_dir 1 0) ∧
      at2 coeff_dir 0 0 = 0 ∧ mV_C TC_RANGE_ERR 0 = 0 := by
  have e00 : at2 range_dir 0 0 = -210.000 := rfl
  have e10 : at2 range_dir 1 0 = 760 := rfl
  refine ⟨(inrange_C_iff 0).mpr (by norm_num), ?_, ?_, mV_C_zero_val _⟩
  · rw [e00, e10]; norm_num
  · show (0.000000000000E+00 : ℚ) = 0
    norm_num

/-! ## Unit conversion and compensation identities -/

/-- The Celsius check after conversion agrees with the Fahrenheit check of the constructed
instance. -/
theorem inrange_C_F_TO_C (f : ℚ) : inrange_C (F_TO_C f) = inrange_F new f := by
  rw [Bool.eq_iff_iff, inrange_C_iff, inrange_F_new_iff, F_TO_C]
  constructor
  · rintro ⟨a, b⟩
    constructor <;> linarith
  · rintro ⟨a, b⟩
    constructor <;> linarith

/-- C16: the Fahrenheit-space range check of `mV_F` is equivalent to the Celsius-space check
after conversion: for every f, `inrange_F f` holds iff `inrange_C (F_TO_C f)` holds, and hence
`mV_F f = mV_C (F_TO_C f)` for every f, in range or not (exact arithmetic, constructed
instance). -/
theorem mV_F_eq_mV_C_converted (TC_RANGE_ERR f : ℚ) :
    (inrange_F new f = true ↔ inrange_C (F_TO_C f) = true) ∧
      mV_F new TC_RANGE_ERR f = mV_C TC_RANGE_ERR (F_TO_C f) := by
  refine ⟨by rw [inrange_C_F_TO_C], ?_⟩
  cases hf : inrange_F new f
  · have hc : inrange_C (F_TO_C f) = false := by rw [inrange_C_F_TO_C, hf]
    rw [mV_C_of_not_inrange _ _ hc]
    simp [mV_F, hf]
  · simp [mV_F, hf]

/-- C17: compensation with an ice-point reference junction is the identity: `mV_C(0) = 0` is
added to mv, so `Temp_C(mv, 0) = Temp_C(mv)` for every mv. -/
theorem Temp_C_amb_ice_point (TC_RANGE_ERR mv : ℚ) :
    mV_C TC_RANGE_ERR 0 = 0 ∧ Temp_C_amb TC_RANGE_ERR mv 0 = Temp_C TC_RANGE_ERR mv := by
  refine ⟨mV_C_zero_val _, ?_⟩
  simp only [Temp_C_amb]
  rw [mV_C_zero_val, add_zero]

/-- C18: the Celsius and Fahrenheit compensated paths agree up to unit conversion:
`F_TO_C (C_TO_F c) = c` for every c, and for every mv and ambient Celsius temperature
`Temp_F(mv, C_TO_F(ambC)) = C_TO_F(Temp_C(mv, ambC))`, with `C_TO_F c = c * 9 / 5 + 32` and
`F_TO_C f = (f - 32) * 5 / 9`. -/
theorem Temp_F_amb_agrees_with_Temp_C_amb (TC_RANGE_ERR mv ambC : ℚ) :
    (∀ c : ℚ, C_TO_F c = c * 9 / 5 + 32) ∧ (∀ f : ℚ, F_TO_C f = (f - 32) * 5 / 9) ∧
    (∀ c : ℚ, F_TO_C (C_TO_F c) = c) ∧
    Temp_F_amb TC_RANGE_ERR mv (C_TO_F ambC) = C_TO_F (Temp_C_amb TC_RANGE_ERR mv ambC) := by
  have hinv : ∀ c : ℚ, F_TO_C (C_TO_F c) = c := by
    intro c
    simp only [F_TO_C, C_TO_F]
    ring
  refine ⟨fun _ => rfl, fun _ => rfl, hinv, ?_⟩
  simp only [Temp_F_amb]
  rw [hinv]

/-! ## Approximate round trip -/

/-- In range, the value of `Temp_C` does not depend on the sentinel. -/
theorem Temp_C_indep (S S' mv : ℚ) (h : inrange_mV mv = true) : Temp_C S mv = Temp_C S' mv := by
  rw [Temp_C_of_inrange S mv h, Temp_C_of_inrange S' mv h]

/-- In range, the value of `mV_C` does not depend on the sentinel. -/
theorem mV_C_indep (S S' t : ℚ) (h : inrange_C t = true) : mV_C S t = mV_C S' t := by
  simp [mV_C, h]

/-- Round trip at one accepted reading, from the three facts evaluated on the code with
sentinel 0. -/
theorem round_trip_at (S mv : ℚ) (hin : inrange_mV mv = true)
    (hc : inrange_C (Temp_C 0 mv) = true)
    (hb : mv - 0.05 ≤ mV_C 0 (Temp_C 0 mv) ∧ mV_C 0 (Temp_C 0 mv) ≤ mv + 0.05) :
    inrange_C (Temp_C S mv) = true ∧ |mV_C S (Temp_C S mv) - mv| ≤ 0.05 := by
  rw [Temp_C_indep S 0 mv hin, mV_C_indep S 0 _ hc]
  refine ⟨hc, ?_⟩
  rw [abs_le]
  constructor <;> linarith [hb.1, hb.2]

/-- C14: approximate round trip at the representative readings mv = -5, 0, 10, 30, 50, 65
(each inverse subrange and the zero point): the reading is accepted, `Temp_C mv` is an
accepted ambient so `mV_C` does not take its error return, `mV_C (Temp_C mv)` is within
0.05 mV of mv, and it differs from every sentinel that is not itself a calibrated
millivolt value. -/
theorem round_trip_representative (TC_RANGE_ERR mv : ℚ)
    (hmv : mv ∈ [(-5 : ℚ), 0, 10, 30, 50, 65]) :
    inrange_mV mv = true ∧ inrange_C (Temp_C TC_RANGE_ERR mv) = true ∧
    |mV_C TC_RANGE_ERR (Temp_C TC_RANGE_ERR mv) - mv| ≤ 0.05 ∧
    (TC_RANGE_ERR < -8.095 ∨ 69.553 < TC_RANGE_ERR →
      mV_C TC_RANGE_ERR (Temp_C TC_RANGE_ERR mv) ≠ TC_RANGE_ERR) := by
  have key : inrange_mV mv = true ∧ inrange_C (Temp_C TC_RANGE_ERR mv) = true ∧
      |mV_C TC_RANGE_ERR (Temp_C TC_RANGE_ERR mv) - mv| ≤ 0.05 ∧ -5 ≤ mv ∧ mv ≤ 65 := by
    simp only [List.mem_cons, List.mem_singleton, List.not_mem_nil, or_false] at hmv
    rcases hmv with rfl | rfl | rfl | rfl | rfl | rfl
    · have hin : inrange_mV (-5) = true := by decide!
      have h := round_trip_at TC_RANGE_ERR (-5) hin (by decide!) (by decide!)
      exact ⟨hin, h.1, h.2, by norm_num, by norm_num⟩
    · have hin : inrange_mV 0 = true := by decide!
      have h := round_trip_at TC_RANGE_ERR 0 hin (by decide!) (by decide!)
      exact ⟨hin, h.1, h.2, by norm_num, by norm_num⟩
    · have hin : inrange_mV 10 = true := by decide!
      have h := round_trip_at TC_RANGE_ERR 10 hin (by decide!) (by decide!)
      exact ⟨hin, h.1, h.2, by norm_num, by norm_num⟩
    · have hin : inrange_mV 30 = true := by decide!
      have h := round_trip_at TC_RANGE_ERR 30 hin (by decide!) (by decide!)
      exact ⟨hin, h.1, h.2, by norm_num, by norm_num⟩
    · have hin : inrange_mV 50 = true := by decide!
      have h := round_trip_at TC_RANGE_ERR 50 hin (by decide!) (by decide!)
      exact ⟨hin, h.1, h.2, by norm_num, by norm_num⟩
    · have hin : inrange_mV 65 = true := by decide!
      have h := round_trip_at TC_RANGE_ERR 65 hin (by decide!) (by decide!)
      exact ⟨hin, h.1, h.2, by norm_num, by norm_num⟩
  obtain ⟨hin, hc, hab, hlo, hhi⟩ := key
  refine ⟨hin, hc, hab, ?_⟩
  intro hS hEq
  rw [abs_le] at hab
  obtain ⟨h1, h2⟩ := hab
  rw [hEq] at h1 h2
  rcases hS with hS | hS
  · norm_num at hS h1
    linarith
  · norm_num at hS h2
    linarith

theorem round_trip_representative_witness :
    (50 : ℚ) ∈ [(-5 : ℚ), 0, 10, 30, 50, 65] ∧
      |mV_C (-99999) (Temp_C (-99999) 50) - 50| ≤ 0.05 ∧
      mV_C (-99999) (Temp_C (-99999) 50) ≠ -99999 := by
  have hm : (50 : ℚ) ∈ [(-5 : ℚ), 0, 10, 30, 50, 65] := by simp
  have h := round_trip_representative (-99999) 50 hm
  exact ⟨hm, h.2.2.1, h.2.2.2 (Or.inl (by norm_num))⟩

/-! ## The inverse series stays inside the calibrated envelope -/

end TypeJ
